import Mathlib

/-!
Verification of the Azul-lite rules engine (`play_azul.py`, `src/agent/agents.py`,
`src/game/components/gameState.py`) against its natural-language specification.

The Python code is shallowly embedded: mutable objects become immutable records,
in-place mutation becomes explicit state passing, functions that the game loop
treats as fallible (an exception or a `False` return leaves the state untouched)
return `Option`.  The Prolog rule oracle (`azul.pl`, not part of the repository
sources) is kept abstract: functions that consult it take the oracle's responses
as parameters.
-/

namespace Azul

/-- Source `COLORS = ["blue","yellow","red","black","white"]` from play_azul.py. -/
inductive Color
  | blue | yellow | red | black | white
deriving DecidableEq, Repr

/-- Source `COLORS` as a list, in source order. -/
def COLORS : List Color := [.blue, .yellow, .red, .black, .white]

/-- Source `ROW_CAP = {1:1,2:2,3:3,4:4,5:5}`: the capacity of pattern row `r` is `r`. -/
def ROW_CAP (r : Nat) : Nat := r

/-- Source `FLOOR_PENALTIES = [-1,-1,-2,-2,-2,-3,-3]`. -/
def FLOOR_PENALTIES : List Int := [-1, -1, -2, -2, -2, -3, -3]

/-- One pattern line: play_azul.py stores `{"color": None or color, "count": int}`. -/
structure PatternLine where
  color : Option Color
  count : Nat
deriving DecidableEq, Repr

/-- The empty pattern line `{"color": None, "count": 0}`. -/
def emptyLine : PatternLine := ⟨none, 0⟩

/-- A wall is the 5x5 grid of 0/1 ints from play_azul.py (`[[0]*5 for _ in range(5)]`). -/
abbrev Wall := List (List Nat)

/-- Source `Player` from play_azul.py: pattern lines (index 0 holds row 1), wall, score, floor.
The `name` field is presentation-only and omitted. -/
structure Player where
  pattern : List PatternLine
  wall : Wall
  score : Int
  floor : List Color
deriving DecidableEq, Repr

/-- A freshly constructed player: empty pattern lines, zero wall, zero score, empty floor. -/
def newPlayer : Player :=
  { pattern := List.replicate 5 emptyLine
  , wall := List.replicate 5 (List.replicate 5 0)
  , score := 0
  , floor := [] }

/-- Source `Player.floor_penalty`: `n = min(len(self.floor), len(FLOOR_PENALTIES)); sum(FLOOR_PENALTIES[:n])`. -/
def Player.floor_penalty (p : Player) : Int :=
  (FLOOR_PENALTIES.take (min p.floor.length FLOOR_PENALTIES.length)).sum

/-- Total number of tiles currently sitting in a player's pattern lines. -/
def Player.patternCount (p : Player) : Nat :=
  (p.pattern.map (fun l => l.count)).sum

/-- Tiles held by a player outside the wall: pattern lines plus floor. -/
def Player.tileCount (p : Player) : Nat :=
  p.patternCount + p.floor.length

/-- Python expression `player.pattern[row]` (row is 1-based; index 0 of the
list holds row 1). -/
def lineAt (p : Player) (row : Nat) : PatternLine :=
  p.pattern.getD (row - 1) emptyLine

/-- Source `AzulGame` state from play_azul.py (the Prolog engine and rng are kept outside
the state: oracle responses and the shuffle become explicit parameters). -/
structure AzulGame where
  players : List Player
  current : Nat
  bag : List Color
  discard : List Color
  center : List Color
  factories : List (List Color)
deriving DecidableEq, Repr

/-- Total tile count over the pools the specification's conservation invariant
enumerates: factories, center, bag, discard, all pattern lines, all floors. -/
def totalTiles (g : AzulGame) : Nat :=
  (g.factories.map List.length).sum + g.center.length + g.bag.length +
    g.discard.length + (g.players.map Player.tileCount).sum

/-- The result of one `self.prolog.query(...)` call in Python: an exception
(`Except.error`) or a list of solutions (possibly empty). The solution payload
is irrelevant to control flow, so solutions are `Unit`. -/
abbrev QueryResult := Except Unit (List Unit)

/-- Source `AzulGame.legal_wall_target` from play_azul.py: it runs the query (first
unquoted, then quoted on exception) and returns `True` whenever a query call
returns at all — the returned solution list is never inspected, so an empty
answer set still yields `True`; only a raised exception in both attempts
yields `False`. -/
def legal_wall_target (q1 q2 : QueryResult) : Bool :=
  match q1 with
  | .ok _ => true
  | .error _ =>
    match q2 with
    | .ok _ => true
    | .error _ => false

/-- What the specification means by the oracle's legality verdict
(modelled from the spec: the Prolog source `azul.pl` is not in the repository):
`legal_placement` succeeds with at least one solution iff the placement is
legal, so an empty solution list is a "no answer" and counts as illegal. -/
def oracleSaysLegal (q : QueryResult) : Bool :=
  match q with
  | .ok sols => !sols.isEmpty
  | .error _ => false

/-- Tile placement shared verbatim by `take_from_factory` and
`take_from_center` in play_azul.py: of `picked` tiles of `color`, up to the
row's free capacity (`ROW_CAP[row] - line count`) go into the pattern
line (which acquires the color on its first tile) and the overflow is appended
to the floor. -/
def draftedPlayer (player : Player) (row picked : Nat) (color : Color) : Player :=
  let line := lineAt player row
  let available := ROW_CAP row - line.count
  let to_line := min available picked
  let overflow := picked - to_line
  { player with
    pattern := player.pattern.set (row - 1)
      ⟨if line.color = none ∧ 0 < to_line then some color else line.color,
       line.count + to_line⟩
    floor := player.floor ++ List.replicate overflow color }

/-- Source `take_from_factory(pid, factory_idx, color, row)` from play_azul.py.
`legal` is the game's bound `legal_wall_target` (a function of the wall, row
and color, which are all the Python code puts into the query).  `none` models a
`False` return or an exception caught by the play loop; both leave the Python
state untouched because every check precedes the first mutation.  An
out-of-range `pid` or `row` raises `IndexError`/`KeyError` in Python before any
mutation, hence also `none`. -/
def take_from_factory (legal : Wall → Nat → Color → Bool) (g : AzulGame)
    (pid k : Nat) (color : Color) (row : Nat) : Option AzulGame :=
  if pid < g.players.length ∧ 1 ≤ row ∧ row ≤ 5 then
    let player := g.players.getD pid newPlayer
    if k < g.factories.length then
      let factory := g.factories.getD k []
      if color ∈ factory then
        let line := lineAt player row
        if line.color = none ∨ line.color = some color then
          if legal player.wall row color then
            let picked := factory.filter (fun t => t = color)
            let rest := factory.filter (fun t => t ≠ color)
            some { g with
                   factories := g.factories.set k []
                   center := g.center ++ rest
                   players := g.players.set pid
                     (draftedPlayer player row picked.length color) }
          else none
        else none
      else none
    else none
  else none

/-- Source `take_from_center(pid, color, row)` from play_azul.py. -/
def take_from_center (legal : Wall → Nat → Color → Bool) (g : AzulGame)
    (pid : Nat) (color : Color) (row : Nat) : Option AzulGame :=
  if pid < g.players.length ∧ 1 ≤ row ∧ row ≤ 5 then
    let player := g.players.getD pid newPlayer
    if color ∈ g.center then
      let line := lineAt player row
      if line.color = none ∨ line.color = some color then
        if legal player.wall row color then
          let count := (g.center.filter (fun t => t = color)).length
          some { g with
                 center := g.center.filter (fun t => t ≠ color)
                 players := g.players.set pid
                   (draftedPlayer player row count color) }
        else none
      else none
    else none
  else none

/-- One drafting step of the 2-player play loop in `AzulGame.play`: on a `True`
return from `take_from_factory` it calls `next_player` (`self.current = 1 -
self.current`); on failure the state is reused unchanged. -/
def applyFactoryCmd (legal : Wall → Nat → Color → Bool) (g : AzulGame)
    (k : Nat) (color : Color) (row : Nat) : AzulGame :=
  match take_from_factory legal g g.current k color row with
  | none => g
  | some g' => { g' with current := 1 - g'.current }

/-- One drafting step of the play loop for a `c <color> <row>` command. -/
def applyCenterCmd (legal : Wall → Nat → Color → Bool) (g : AzulGame)
    (color : Color) (row : Nat) : AzulGame :=
  match take_from_center legal g g.current color row with
  | none => g
  | some g' => { g' with current := 1 - g'.current }

/-- The Prolog side of `AzulGame.prolog_score`: for a wall, row and color it
yields the score and the 1-based wall column; `(0, none)` models an empty
`wall_column_for` answer and `(0, some col)` an empty `score_for_placement`
answer, exactly the fallbacks the Python code produces.  Kept abstract, like
`legal`, because `azul.pl` is not part of the repository. -/
abbrev ScoreOracle := Wall → Nat → Color → Int × Option Nat

/-- Source `p.wall[row-1][col-1] = 1` for 1-based `row`, `col` (Prolog's
`wall_column_for` answers are 1-based, so the Python index is nonnegative). -/
def wallMark (w : Wall) (row col : Nat) : Wall :=
  w.set (row - 1) ((w.getD (row - 1) []).set (col - 1) 1)

/-- The body of the row loop in `AzulGame.end_round` for one row of one player:
if the line is full and colored, ask the oracle; with no column answer the row
is skipped (`continue`), otherwise the wall cell is marked, the score added,
`cap - 1` leftover tiles returned for the discard pile, and the line cleared. -/
def commitRow (o : ScoreOracle) (p : Player) (row : Nat) : Player × List Color :=
  let cap := ROW_CAP row
  let line := lineAt p row
  match line.color with
  | none => (p, [])
  | some color =>
    if line.count = cap then
      match (o p.wall row color).2 with
      | none => (p, [])
      | some col =>
        ({ p with
           wall := wallMark p.wall row col
           score := p.score + (o p.wall row color).1
           pattern := p.pattern.set (row - 1) emptyLine },
         List.replicate (cap - 1) color)
    else (p, [])

/-- Whether `commitRow` takes its committing branch (the line is full, colored,
and the oracle supplies a wall column).  Used only to state theorems. -/
def rowCommits (o : ScoreOracle) (p : Player) (row : Nat) : Bool :=
  let line := lineAt p row
  match line.color with
  | none => false
  | some color =>
    if line.count = ROW_CAP row then
      match (o p.wall row color).2 with
      | none => false
      | some _ => true
    else false

/-- The row loop of `end_round` over a list of row indices, threading the
player and collecting the tiles pushed to the discard pile. -/
def commitRows (o : ScoreOracle) : Player → List Nat → Player × List Color
  | p, [] => (p, [])
  | p, r :: rs =>
    let pr := commitRow o p r
    let rest := commitRows o pr.1 rs
    (rest.1, pr.2 ++ rest.2)

/-- Number of rows the loop commits, measured along the same thread of states.
Used only to state theorems. -/
def committedCount (o : ScoreOracle) : Player → List Nat → Nat
  | _, [] => 0
  | p, r :: rs =>
    (if rowCommits o p r then 1 else 0) + committedCount o (commitRow o p r).1 rs

/-- Source `for row in range(1,6)` of `end_round`. -/
def ROWS : List Nat := [1, 2, 3, 4, 5]

/-- The per-player part of `end_round`: commit all five rows, then apply the
floor penalty (`if pen < 0: p.score += pen`) and clear the floor. -/
def endRoundPlayer (o : ScoreOracle) (p : Player) : Player × List Color :=
  let pr := commitRows o p ROWS
  let pen := pr.1.floor_penalty
  ({ pr.1 with
     score := if pen < 0 then pr.1.score + pen else pr.1.score
     floor := [] }, pr.2)

/-- The player loop of `end_round`, collecting every player's discards. -/
def endRoundPlayers (o : ScoreOracle) : List Player → List Player × List Color
  | [] => ([], [])
  | p :: ps =>
    let pr := endRoundPlayer o p
    let rest := endRoundPlayers o ps
    (pr.1 :: rest.1, pr.2 ++ rest.2)

/-- Source `AzulGame.draw_tiles(n)`: pop `n` tiles off the end of the bag; when the bag
is empty, move the discard pile into the bag and shuffle first; when both are
empty, stop short (`break`).  `shuffle` stands for `self.rng.shuffle`. -/
def draw_tiles (shuffle : List Color → List Color) :
    Nat → List Color → List Color → List Color × List Color × List Color
  | 0, bag, discard => ([], bag, discard)
  | n + 1, bag, discard =>
    let bd := if bag.isEmpty then (shuffle discard, ([] : List Color)) else (bag, discard)
    if h : bd.1 = [] then ([], bd.1, bd.2)
    else
      let t := bd.1.getLast h
      let rest := draw_tiles shuffle n bd.1.dropLast bd.2
      (t :: rest.1, rest.2)

/-- The factory loop of `AzulGame.refill_factories`: each factory in turn is
replaced by a fresh draw of 4 tiles, threading bag and discard. -/
def refillLoop (shuffle : List Color → List Color) :
    List (List Color) → List Color → List Color →
      List (List Color) × List Color × List Color
  | [], bag, discard => ([], bag, discard)
  | _ :: fs, bag, discard =>
    let d := draw_tiles shuffle 4 bag discard
    let rest := refillLoop shuffle fs d.2.1 d.2.2
    (d.1 :: rest.1, rest.2)

/-- Source `AzulGame.refill_factories`. -/
def refill_factories (shuffle : List Color → List Color) (g : AzulGame) : AzulGame :=
  let r := refillLoop shuffle g.factories g.bag g.discard
  { g with factories := r.1, bag := r.2.1, discard := r.2.2 }

/-- Source `AzulGame.end_round`: score every player's completed rows, apply floor
penalties, clear floors, then clear the center and refill the factories. -/
def end_round (o : ScoreOracle) (shuffle : List Color → List Color)
    (g : AzulGame) : AzulGame :=
  let pr := endRoundPlayers o g.players
  refill_factories shuffle
    { g with players := pr.1, discard := g.discard ++ pr.2, center := [] }

/-- Total committed rows across all players, along the `end_round` thread. -/
def committedTotal (o : ScoreOracle) : List Player → Nat
  | [] => 0
  | p :: ps => committedCount o p ROWS + committedTotal o ps

/-- Total number of tiles on all floors. -/
def floorsTotal (ps : List Player) : Nat :=
  (ps.map (fun p => p.floor.length)).sum

/-- The two action shapes agents produce: `('F', k, color, row)` and
`('C', color, row)`. -/
inductive Action
  | fromFactory (k : Nat) (color : Color) (row : Nat)
  | fromCenter (color : Color) (row : Nat)
deriving DecidableEq, Repr

/-- Helper for `dedupFirst`: keep the elements not yet seen. -/
def dedupFirstAux : List Color → List Color → List Color
  | [], _ => []
  | c :: cs, seen =>
    if c ∈ seen then dedupFirstAux cs seen
    else c :: dedupFirstAux cs (c :: seen)

/-- Iteration order of `Counter(f).items()`: distinct elements in order of
first occurrence. -/
def dedupFirst (l : List Color) : List Color :=
  dedupFirstAux l []

/-- Multiplicity of `c` in `l`, the count `Counter(l)[c]`. -/
def countEq (l : List Color) (c : Color) : Nat :=
  (l.filter (fun x => x = c)).length

/-- Source `_floor_penalty_for_overflow(current_floor_len, overflow)` from agents.py:
`sum(FLOOR_PENALTIES[start:end])` with `start = current_floor_len` and
`end = min(current_floor_len + overflow, len(FLOOR_PENALTIES))`. -/
def floorPenaltyForOverflow (current_floor_len overflow : Nat) : Int :=
  if overflow = 0 then 0
  else
    let start := current_floor_len
    let stop := min (current_floor_len + overflow) FLOOR_PENALTIES.length
    ((FLOOR_PENALTIES.drop start).take (stop - start)).sum

/-- The candidate filter and value of the first `GreedyAgent.choose` for one
(color, row) pair from a source holding `cnt` tiles of that color (the factory
and center loop bodies are verbatim copies of each other in the source).
`queryOk wall row color` models "the `_legal_wall_target` query returned rather
than raised" — the returned value is always `True` and is discarded anyway.
`none` models `continue`. -/
def greedyVal (queryOk : Wall → Nat → Color → Bool)
    (scoreFn : Wall → Nat → Color → Int) (player : Player)
    (color : Color) (cnt row : Nat) : Option Int :=
  let line := lineAt player row
  if line.color = none ∨ line.color = some color then
    if queryOk player.wall row color then
      let cap := ROW_CAP row
      let available := cap - line.count
      if 0 < available then
        let to_line := min available cnt
        let overflow := cnt - to_line
        let base : Int := to_line
        let bonus : Int :=
          if to_line = available ∧ (line.color = none ∨ line.color = some color)
          then scoreFn player.wall row color else 0
        some (base + bonus + floorPenaltyForOverflow player.floor.length overflow)
      else none
    else none
  else none

/-- The `candidates` list the first `GreedyAgent.choose` builds: all factory
candidates in enumeration order, then all center candidates. -/
def greedyCandidates (queryOk : Wall → Nat → Color → Bool)
    (scoreFn : Wall → Nat → Color → Int) (g : AzulGame) (pid : Nat) :
    List (Action × Int) :=
  let player := g.players.getD pid newPlayer
  (g.factories.enum.flatMap (fun kf =>
    (dedupFirst kf.2).flatMap (fun color =>
      ROWS.filterMap (fun row =>
        (greedyVal queryOk scoreFn player color (countEq kf.2 color) row).map
          (fun v => (Action.fromFactory kf.1 color row, v))))))
  ++ (dedupFirst g.center).flatMap (fun color =>
      ROWS.filterMap (fun row =>
        (greedyVal queryOk scoreFn player color (countEq g.center color) row).map
          (fun v => (Action.fromCenter color row, v))))

/-- Insertion step of a stable descending sort on the value component:
`x` goes after every strictly greater earlier element and before equal ones
that were inserted before it (i.e. that came later in the original list). -/
def insertDesc (x : Action × Int) : List (Action × Int) → List (Action × Int)
  | [] => [x]
  | y :: ys => if x.2 < y.2 then y :: insertDesc x ys else x :: y :: ys

/-- Stable descending sort by value: the semantics of Python's
`candidates.sort(key=lambda x: x[1], reverse=True)` (Python's sort is stable,
so elements with equal values keep their enumeration order). -/
def sortDesc : List (Action × Int) → List (Action × Int)
  | [] => []
  | x :: xs => insertDesc x (sortDesc xs)

/-- The first `GreedyAgent.choose`: empty candidate set gives `None`; otherwise
sort descending by value and return the first action. -/
def greedyChoose (queryOk : Wall → Nat → Color → Bool)
    (scoreFn : Wall → Nat → Color → Int) (g : AzulGame) (pid : Nat) :
    Option Action :=
  let candidates := greedyCandidates queryOk scoreFn g pid
  if candidates.isEmpty then none
  else ((sortDesc candidates).head?).map Prod.fst

/-- The first element of maximal value (earlier elements win ties).
Used only to state and prove theorems about `greedyChoose`. -/
def firstMax : List (Action × Int) → Option (Action × Int)
  | [] => none
  | x :: xs =>
    match firstMax xs with
    | none => some x
    | some m => if x.2 < m.2 then some m else some x

/-- Source `MiniMaxAgent._legal_actions`: same enumeration as the greedy agent but
with no capacity filter and no value. -/
def legalActions (queryOk : Wall → Nat → Color → Bool) (g : AzulGame)
    (pid : Nat) : List Action :=
  let player := g.players.getD pid newPlayer
  let rowOk : Color → Nat → Bool := fun color row =>
    let line := lineAt player row
    (decide (line.color = none ∨ line.color = some color) &&
      queryOk player.wall row color)
  (g.factories.enum.flatMap (fun kf =>
    (dedupFirst kf.2).flatMap (fun color =>
      ROWS.filterMap (fun row =>
        if rowOk color row then some (Action.fromFactory kf.1 color row)
        else none))))
  ++ (dedupFirst g.center).flatMap (fun color =>
      ROWS.filterMap (fun row =>
        if rowOk color row then some (Action.fromCenter color row) else none))

/-- Source `max(others) if others else 0` from `MiniMaxAgent.evaluate`. -/
def pyMaxOr0 : List Int → Int
  | [] => 0
  | x :: xs => xs.foldl max x

/-- Source `MiniMaxAgent.evaluate`: own score minus the best opponent score. -/
def minimaxEvaluate (g : AzulGame) (pid : Nat) : Int :=
  let my := (g.players.getD pid newPlayer).score
  let others := (g.players.enum.filter (fun ip => ip.1 ≠ pid)).map
    (fun ip => ip.2.score)
  my - pyMaxOr0 others

/-- The `for i, a in enumerate(actions[:12])` loop of `MiniMaxAgent.choose`:
track the best (action, value), strict improvement only, so the first maximum
of the 12-element prefix wins. -/
def minimaxBest (f : Action → Int) (actions : List Action) :
    Option (Action × Int) :=
  (actions.take 12).foldl
    (fun acc a =>
      match acc with
      | none => some (a, f a)
      | some bv => if bv.2 < f a then some (a, f a) else some bv)
    none

/-- Outcome of evaluating a piece of Python code: a value, or an
`AttributeError` for a named missing attribute. -/
inductive PyOutcome (α : Type)
  | ok (val : α)
  | attributeError (attr : String)
deriving DecidableEq, Repr

/-- Python attribute lookup against a class's method table. -/
def pyGetattr (methods : List String) (attr : String) : PyOutcome String :=
  if attr ∈ methods then .ok attr else .attributeError attr

/-- Source `MiniMaxAgent.choose`: deep-copies the game (a pure value copy here),
calls `clone.apply_action(pid, a)` on each of the first 12 actions and keeps
the action with the best `evaluate`.  The `apply_action` attribute is resolved
on the game object; it is passed in as an optional method because the
repository never defines it (see `applyActionMethod`). -/
def minimaxChoose (queryOk : Wall → Nat → Color → Bool)
    (apply_action : Option (AzulGame → Nat → Action → AzulGame))
    (g : AzulGame) (pid : Nat) : PyOutcome (Option Action) :=
  let actions := legalActions queryOk g pid
  if actions.isEmpty then .ok none
  else
    match apply_action with
    | none => .attributeError "apply_action"
    | some m =>
      match minimaxBest (fun a => minimaxEvaluate (m g pid a) pid) actions with
      | none => .ok none
      | some bv => .ok (some bv.1)

/-- No class in the repository defines `apply_action`: the method table of the
active `AzulGame` of play_azul_fullui.py (`azulGameFullUiMethods`), of the
`AzulGame` of play_azul.py (`playAzulGameMethods`) and of every other class
lack the name, so resolution yields nothing. -/
def applyActionMethod : Option (AzulGame → Nat → Action → AzulGame) := none

/-- Methods of the live `AzulGame` class of play_azul_fullui.py (lines 130-211;
the second `AzulGame` further down that file sits inside a triple-quoted string
literal and is never executed). -/
def azulGameFullUiMethods : List String :=
  ["__init__", "draw_tiles", "refill_factories", "is_round_empty",
   "next_player", "legal_wall_target", "prolog_score"]

/-- Methods of `AzulGame` in play_azul.py. -/
def playAzulGameMethods : List String :=
  ["__init__", "draw_tiles", "refill_factories", "is_round_empty",
   "next_player", "show_state", "legal_wall_target", "prolog_score",
   "take_from_factory", "take_from_center", "end_round", "check_end_game",
   "play"]

/-- Methods of `_BaseAgent` in agents.py. -/
def baseAgentMethods : List String := ["__init__", "_emit"]

/-- Resolved method table of the first `class GreedyAgent(_BaseAgent)`
(agents.py line 103): its own `choose` plus the inherited base methods. -/
def greedyAgentFirstMethods : List String := ["choose"] ++ baseAgentMethods

/-- Resolved method table of the second `class GreedyAgent` (agents.py line
221): only `__init__` and `choose`; it inherits from nothing but `object`. -/
def greedyAgentSecondMethods : List String := ["__init__", "choose"]

/-- Top-level class statements of agents.py in execution order, with their
resolved method tables. -/
def agentsModuleClassBindings : List (String × List String) :=
  [("_BaseAgent", baseAgentMethods),
   ("RandomAgent", ["choose"] ++ baseAgentMethods),
   ("GreedyAgent", greedyAgentFirstMethods),
   ("MiniMaxAgent", ["__init__", "evaluate", "_legal_actions", "choose"]
      ++ baseAgentMethods),
   ("GreedyAgent", greedyAgentSecondMethods)]

/-- Top-level function names defined in agents.py (none of them is
`get_candidate_moves`, `is_valid` or `pick_best`). -/
def agentsModuleFunctionNames : List String :=
  ["_floor_penalty_for_overflow", "_prolog_score", "_legal_wall_target",
   "_summarize_state", "_format_action"]

/-- Python module-level name binding: repeated `class Name:` statements rebind
the name, so lookup returns the last binding. -/
def pyModuleLookup (bindings : List (String × List String)) (name : String) :
    Option (List String) :=
  ((bindings.filter (fun b => b.1 = name)).map (fun b => b.2)).getLast?

/-- The module defines no function, method or instance attribute named
`get_candidate_moves` anywhere, so the name the second `GreedyAgent.choose`
resolves on `self` has no value. -/
def moduleGetCandidateMoves : Option (AzulGame → Nat → List Action) := none

/-- The second `GreedyAgent.choose` (the definition agents.py actually
exports): its first statement is `candidates = self.get_candidate_moves(game,
pid)`; the attribute resolution happens before anything else (the constructor
only sets `prolog`, `visualizer` and `name`), so the call raises
`AttributeError` whenever the method is missing.  `pick_best` stands for the
rest of the body, which only runs if the first lookup succeeded. -/
def greedySecondChoose (get_candidate_moves : Option (AzulGame → Nat → List Action))
    (pick_best : List Action → Option Action) (g : AzulGame) (pid : Nat) :
    PyOutcome (Option Action) :=
  match get_candidate_moves with
  | none => .attributeError "get_candidate_moves"
  | some f => .ok (pick_best (f g pid))

/-! ### List helper lemmas -/

theorem sum_map_set {α : Type} (f : α → Nat) (d : α) :
    ∀ (l : List α) (i : Nat) (x : α), i < l.length →
      ((l.set i x).map f).sum + f (l.getD i d) = (l.map f).sum + f x := by
  intro l
  induction l with
  | nil => intro i x h; simp at h
  | cons a l ih =>
    intro i x h
    cases i with
    | zero => simp; omega
    | succ i =>
      have h' : i < l.length := by simpa using h
      have hrec := ih i x h'
      simp only [List.set_cons_succ, List.map_cons, List.sum_cons,
        List.getD_cons_succ] at hrec ⊢
      omega

theorem length_filter_eq_add_ne (l : List Color) (c : Color) :
    (l.filter (fun t => t = c)).length + (l.filter (fun t => t ≠ c)).length
      = l.length := by
  induction l with
  | nil => rfl
  | cons a l ih =>
    by_cases h : a = c <;> simp [List.filter_cons, h, ne_eq] at ih ⊢ <;> omega

theorem sum_nonpos_of_forall {l : List Int} (h : ∀ x ∈ l, x ≤ 0) :
    l.sum ≤ 0 := by
  induction l with
  | nil => simp
  | cons a l ih =>
    simp only [List.sum_cons]
    have ha := h a (by simp)
    have hl := ih (fun x hx => h x (by simp [hx]))
    omega

theorem floor_penalties_slice_nonpos (a b : Nat) :
    ((FLOOR_PENALTIES.drop a).take b).sum ≤ 0 := by
  refine sum_nonpos_of_forall ?_
  intro x hx
  have hx1 : x ∈ FLOOR_PENALTIES.drop a := List.take_subset _ _ hx
  have hx2 : x ∈ FLOOR_PENALTIES := List.drop_subset _ _ hx1
  simp only [FLOOR_PENALTIES, List.mem_cons, List.not_mem_nil, or_false] at hx2
  rcases hx2 with rfl | rfl | rfl | rfl | rfl | rfl | rfl <;> decide

theorem floor_penalties_take_nonpos (n : Nat) :
    (FLOOR_PENALTIES.take n).sum ≤ 0 := by
  have h : FLOOR_PENALTIES.take n = (FLOOR_PENALTIES.drop 0).take n := by simp
  rw [h]
  exact floor_penalties_slice_nonpos 0 n

/-! ### Inversion of the draft operations -/

theorem take_from_factory_some
    {legal : Wall → Nat → Color → Bool} {g : AzulGame} {pid k : Nat}
    {color : Color} {row : Nat} {g' : AzulGame}
    (h : take_from_factory legal g pid k color row = some g') :
    pid < g.players.length ∧ 1 ≤ row ∧ row ≤ 5 ∧ k < g.factories.length ∧
      color ∈ g.factories.getD k [] ∧
      ((lineAt (g.players.getD pid newPlayer) row).color
          = none ∨
        (lineAt (g.players.getD pid newPlayer) row).color
          = some color) ∧
      legal (g.players.getD pid newPlayer).wall row color = true ∧
      g' = { g with
             factories := g.factories.set k []
             center := g.center ++
               (g.factories.getD k []).filter (fun t => t ≠ color)
             players := g.players.set pid
               (draftedPlayer (g.players.getD pid newPlayer) row
                 ((g.factories.getD k []).filter (fun t => t = color)).length
                 color) } := by
  simp only [take_from_factory] at h
  split at h
  case isFalse => exact absurd h (by simp)
  case isTrue hp =>
    split at h
    case isFalse => exact absurd h (by simp)
    case isTrue hk =>
      split at h
      case isFalse => exact absurd h (by simp)
      case isTrue hmem =>
        split at h
        case isFalse => exact absurd h (by simp)
        case isTrue hline =>
          split at h
          case isFalse => exact absurd h (by simp)
          case isTrue hleg =>
            exact ⟨hp.1, hp.2.1, hp.2.2, hk, hmem, hline, hleg,
              (Option.some.inj h).symm⟩

theorem take_from_center_some
    {legal : Wall → Nat → Color → Bool} {g : AzulGame} {pid : Nat}
    {color : Color} {row : Nat} {g' : AzulGame}
    (h : take_from_center legal g pid color row = some g') :
    pid < g.players.length ∧ 1 ≤ row ∧ row ≤ 5 ∧ color ∈ g.center ∧
      ((lineAt (g.players.getD pid newPlayer) row).color
          = none ∨
        (lineAt (g.players.getD pid newPlayer) row).color
          = some color) ∧
      legal (g.players.getD pid newPlayer).wall row color = true ∧
      g' = { g with
             center := g.center.filter (fun t => t ≠ color)
             players := g.players.set pid
               (draftedPlayer (g.players.getD pid newPlayer) row
                 (g.center.filter (fun t => t = color)).length color) } := by
  simp only [take_from_center] at h
  split at h
  case isFalse => exact absurd h (by simp)
  case isTrue hp =>
    split at h
    case isFalse => exact absurd h (by simp)
    case isTrue hmem =>
      split at h
      case isFalse => exact absurd h (by simp)
      case isTrue hline =>
        split at h
        case isFalse => exact absurd h (by simp)
        case isTrue hleg =>
          exact ⟨hp.1, hp.2.1, hp.2.2, hmem, hline, hleg,
            (Option.some.inj h).symm⟩

theorem getD_set_self {α : Type} :
    ∀ (l : List α) (k : Nat) (x d : α), k < l.length →
      (l.set k x).getD k d = x := by
  intro l
  induction l with
  | nil => intro k x d h; simp at h
  | cons a l ih =>
    intro k x d h
    cases k with
    | zero => rfl
    | succ k =>
      have := ih k x d (by simpa using h)
      simpa using this

theorem getD_set_ne {α : Type} :
    ∀ (l : List α) (k j : Nat) (x d : α), j ≠ k →
      (l.set k x).getD j d = l.getD j d := by
  intro l
  induction l with
  | nil => intro k j x d _; simp
  | cons a l ih =>
    intro k j x d h
    cases k with
    | zero =>
      cases j with
      | zero => exact absurd rfl h
      | succ j => simp
    | succ k =>
      cases j with
      | zero => simp
      | succ j =>
        have := ih k j x d (by omega)
        simpa using this

/-- A small concrete game used to instantiate theorems with hypotheses. -/
def gW : AzulGame :=
  { players := [newPlayer, newPlayer], current := 0, bag := [], discard := [],
    center := [.red], factories := [[.blue, .blue, .red, .red]] }

/-- C2. Draft atomicity: for every game state and draft action, each of the
checked preconditions (factory index in range, chosen color present in the
source, target row empty or of the same color, `legal_wall_target` holding)
failing makes `take_from_factory` / `take_from_center` fail, and the play
loop's step then leaves the state unchanged field-by-field (faithful to the
source because every check precedes the first mutation); on success the play
loop advances the current-player pointer (`self.current = 1 - self.current`). -/
theorem draft_atomicity :
    (∀ (legal : Wall → Nat → Color → Bool) (g : AzulGame) (k : Nat)
       (color : Color) (row : Nat),
       (g.factories.length ≤ k ∨ color ∉ g.factories.getD k [] ∨
         ¬((lineAt (g.players.getD g.current newPlayer) row).color = none ∨
           (lineAt (g.players.getD g.current newPlayer) row).color = some color) ∨
         legal (g.players.getD g.current newPlayer).wall row color = false) →
       take_from_factory legal g g.current k color row = none ∧
         applyFactoryCmd legal g k color row = g) ∧
    (∀ (legal : Wall → Nat → Color → Bool) (g : AzulGame) (color : Color)
       (row : Nat),
       (color ∉ g.center ∨
         ¬((lineAt (g.players.getD g.current newPlayer) row).color = none ∨
           (lineAt (g.players.getD g.current newPlayer) row).color = some color) ∨
         legal (g.players.getD g.current newPlayer).wall row color = false) →
       take_from_center legal g g.current color row = none ∧
         applyCenterCmd legal g color row = g) ∧
    (∀ (legal : Wall → Nat → Color → Bool) (g : AzulGame) (k : Nat)
       (color : Color) (row : Nat) (g' : AzulGame),
       take_from_factory legal g g.current k color row = some g' →
       (applyFactoryCmd legal g k color row).current = 1 - g.current) ∧
    (∀ (legal : Wall → Nat → Color → Bool) (g : AzulGame) (color : Color)
       (row : Nat) (g' : AzulGame),
       take_from_center legal g g.current color row = some g' →
       (applyCenterCmd legal g color row).current = 1 - g.current) := by
  refine ⟨?_, ?_, ?_, ?_⟩
  · intro legal g k color row hfail
    have hnone : take_from_factory legal g g.current k color row = none := by
      cases htf : take_from_factory legal g g.current k color row with
      | none => rfl
      | some g1 =>
        obtain ⟨hp, hr1, hr5, hk, hmem, hline, hleg, hg⟩ :=
          take_from_factory_some htf
        rcases hfail with hf | hf | hf | hf
        · omega
        · exact absurd hmem hf
        · exact absurd hline hf
        · rw [hf] at hleg
          exact absurd hleg (by decide)
    exact ⟨hnone, by simp [applyFactoryCmd, hnone]⟩
  · intro legal g color row hfail
    have hnone : take_from_center legal g g.current color row = none := by
      cases htf : take_from_center legal g g.current color row with
      | none => rfl
      | some g1 =>
        obtain ⟨hp, hr1, hr5, hmem, hline, hleg, hg⟩ :=
          take_from_center_some htf
        rcases hfail with hf | hf | hf
        · exact absurd hmem hf
        · exact absurd hline hf
        · rw [hf] at hleg
          exact absurd hleg (by decide)
    exact ⟨hnone, by simp [applyCenterCmd, hnone]⟩
  · intro legal g k color row g' htf
    obtain ⟨hp, hr1, hr5, hk, hmem, hline, hleg, hg⟩ :=
      take_from_factory_some htf
    have hcur : g'.current = g.current := by rw [hg]
    simp [applyFactoryCmd, htf, hcur]
  · intro legal g color row g' htf
    obtain ⟨hp, hr1, hr5, hmem, hline, hleg, hg⟩ :=
      take_from_center_some htf
    have hcur : g'.current = g.current := by rw [hg]
    simp [applyCenterCmd, htf, hcur]

/-- Witness for C2 at a concrete input: factory index 99 is out of range for
`gW`, so the draft fails and the step leaves the state unchanged. -/
theorem draft_atomicity_witness :
    take_from_factory (fun _ _ _ => true) gW gW.current 99 .blue 1 = none ∧
      applyFactoryCmd (fun _ _ _ => true) gW 99 .blue 1 = gW :=
  draft_atomicity.1 (fun _ _ _ => true) gW 99 .blue 1 (Or.inl (by decide))

theorem getD_mem {α : Type} :
    ∀ (l : List α) (i : Nat) (d : α), i < l.length → l.getD i d ∈ l := by
  intro l
  induction l with
  | nil => intro i d h; simp at h
  | cons a l ih =>
    intro i d h
    cases i with
    | zero => simp
    | succ i =>
      have hmem := ih i d (by simpa using h)
      rw [List.getD_cons_succ]
      exact List.mem_cons_of_mem a hmem

theorem draftedPlayer_line_count (player : Player) (row picked : Nat)
    (color : Color) (h1 : 1 ≤ row) (h5 : row ≤ 5)
    (hlen : player.pattern.length = 5) :
    (lineAt (draftedPlayer player row picked color) row).count
      = (lineAt player row).count +
        min (ROW_CAP row - (lineAt player row).count)
          picked := by
  have hlt : row - 1 < player.pattern.length := by omega
  simp only [draftedPlayer, lineAt]
  rw [getD_set_self _ _ _ _ hlt]

theorem draftedPlayer_floor (player : Player) (row picked : Nat)
    (color : Color) :
    (draftedPlayer player row picked color).floor
      = player.floor ++ List.replicate
          (picked - min
            (ROW_CAP row - (lineAt player row).count)
            picked) color := rfl

theorem draftedPlayer_tileCount (player : Player) (row picked : Nat)
    (color : Color) (h1 : 1 ≤ row) (h5 : row ≤ 5)
    (hlen : player.pattern.length = 5) :
    (draftedPlayer player row picked color).tileCount
      = player.tileCount + picked := by
  have hlt : row - 1 < player.pattern.length := by omega
  have hpc := sum_map_set (fun l => l.count) emptyLine player.pattern (row - 1)
    ⟨if (lineAt player row).color = none ∧
        0 < min (ROW_CAP row - (lineAt player row).count)
          picked
      then some color else (lineAt player row).color,
     (lineAt player row).count +
       min (ROW_CAP row - (lineAt player row).count)
         picked⟩ hlt
  have hmin : min (ROW_CAP row -
      (lineAt player row).count) picked ≤ picked :=
    Nat.min_le_right _ _
  simp only [Player.tileCount, Player.patternCount, draftedPlayer, lineAt,
    List.length_append, List.length_replicate] at hpc ⊢
  omega

/-- C3. Draft effect: a successful factory draft empties the factory, appends
every non-chosen tile to the center, fills the target row up to its free
capacity and appends exactly the surplus to the floor; a successful center
draft removes only the chosen color from the center (all other center tiles
are untouched, factories included) and routes tiles to row and floor the same
way. -/
theorem draft_effect :
    (∀ (legal : Wall → Nat → Color → Bool) (g : AzulGame) (pid k : Nat)
       (color : Color) (row : Nat) (g' : AzulGame),
       (∀ p ∈ g.players, p.pattern.length = 5) →
       take_from_factory legal g pid k color row = some g' →
       g'.factories.getD k [] = [] ∧
       (∀ j, j ≠ k → g'.factories.getD j [] = g.factories.getD j []) ∧
       g'.center = g.center ++
         (g.factories.getD k []).filter (fun t => t ≠ color) ∧
       (lineAt (g'.players.getD pid newPlayer) row).count
         = (lineAt (g.players.getD pid newPlayer) row).count +
           min (ROW_CAP row - (lineAt (g.players.getD pid newPlayer) row).count)
             ((g.factories.getD k []).filter (fun t => t = color)).length ∧
       (g'.players.getD pid newPlayer).floor
         = (g.players.getD pid newPlayer).floor ++
           List.replicate
             (((g.factories.getD k []).filter (fun t => t = color)).length -
               min (ROW_CAP row -
                   (lineAt (g.players.getD pid newPlayer) row).count)
                 ((g.factories.getD k []).filter
                   (fun t => t = color)).length)
             color ∧
       g'.bag = g.bag ∧ g'.discard = g.discard) ∧
    (∀ (legal : Wall → Nat → Color → Bool) (g : AzulGame) (pid : Nat)
       (color : Color) (row : Nat) (g' : AzulGame),
       (∀ p ∈ g.players, p.pattern.length = 5) →
       take_from_center legal g pid color row = some g' →
       g'.center = g.center.filter (fun t => t ≠ color) ∧
       g'.factories = g.factories ∧
       (lineAt (g'.players.getD pid newPlayer) row).count
         = (lineAt (g.players.getD pid newPlayer) row).count +
           min (ROW_CAP row - (lineAt (g.players.getD pid newPlayer) row).count)
             (g.center.filter (fun t => t = color)).length ∧
       (g'.players.getD pid newPlayer).floor
         = (g.players.getD pid newPlayer).floor ++
           List.replicate
             ((g.center.filter (fun t => t = color)).length -
               min (ROW_CAP row -
                   (lineAt (g.players.getD pid newPlayer) row).count)
                 (g.center.filter (fun t => t = color)).length)
             color ∧
       g'.bag = g.bag ∧ g'.discard = g.discard) := by
  constructor
  · intro legal g pid k color row g' hpat htf
    obtain ⟨hp, hr1, hr5, hk, hmem, hline, hleg, hg⟩ :=
      take_from_factory_some htf
    have hlen : (g.players.getD pid newPlayer).pattern.length = 5 :=
      hpat _ (getD_mem _ _ _ hp)
    subst hg
    refine ⟨getD_set_self _ _ _ _ hk, fun j hj => getD_set_ne _ _ _ _ _ hj,
      rfl, ?_, ?_, rfl, rfl⟩
    · show (lineAt ((g.players.set pid _).getD pid newPlayer) row).count = _
      rw [getD_set_self _ _ _ _ hp]
      exact draftedPlayer_line_count _ _ _ _ hr1 hr5 hlen
    · show (((g.players.set pid _).getD pid newPlayer)).floor = _
      rw [getD_set_self _ _ _ _ hp]
      exact draftedPlayer_floor _ _ _ _
  · intro legal g pid color row g' hpat htf
    obtain ⟨hp, hr1, hr5, hmem, hline, hleg, hg⟩ :=
      take_from_center_some htf
    have hlen : (g.players.getD pid newPlayer).pattern.length = 5 :=
      hpat _ (getD_mem _ _ _ hp)
    subst hg
    refine ⟨rfl, rfl, ?_, ?_, rfl, rfl⟩
    · show (lineAt ((g.players.set pid _).getD pid newPlayer) row).count = _
      rw [getD_set_self _ _ _ _ hp]
      exact draftedPlayer_line_count _ _ _ _ hr1 hr5 hlen
    · show (((g.players.set pid _).getD pid newPlayer)).floor = _
      rw [getD_set_self _ _ _ _ hp]
      exact draftedPlayer_floor _ _ _ _

/-- The state gW reaches when player 0 drafts blue from factory 0 to row 2. -/
def gW3 : AzulGame :=
  { players := [draftedPlayer newPlayer 2 2 .blue, newPlayer], current := 0,
    bag := [], discard := [], center := [.red, .red, .red],
    factories := [[]] }

/-- Witness for C3 at a concrete input: drafting blue from factory
`[blue, blue, red, red]` of `gW` into row 2. -/
theorem draft_effect_witness :
    take_from_factory (fun _ _ _ => true) gW 0 0 .blue 2 = some gW3 ∧
      gW3.center = gW.center ++
        ((gW.factories.getD 0 []).filter (fun t => t ≠ Color.blue)) ∧
      gW3.factories.getD 0 [] = [] :=
  ⟨by decide,
   (draft_effect.1 (fun _ _ _ => true) gW 0 0 .blue 2 gW3 (by decide)
     (by decide)).2.2.1,
   (draft_effect.1 (fun _ _ _ => true) gW 0 0 .blue 2 gW3 (by decide)
     (by decide)).1⟩

theorem take_from_factory_totalTiles
    {legal : Wall → Nat → Color → Bool} {g : AzulGame} {pid k : Nat}
    {color : Color} {row : Nat} {g' : AzulGame}
    (hpat : ∀ p ∈ g.players, p.pattern.length = 5)
    (h : take_from_factory legal g pid k color row = some g') :
    totalTiles g' = totalTiles g := by
  obtain ⟨hp, hr1, hr5, hk, hmem, hline, hleg, hg⟩ := take_from_factory_some h
  have hlen := hpat (g.players.getD pid newPlayer)
    (getD_mem g.players pid newPlayer hp)
  subst hg
  have hfac := sum_map_set List.length [] g.factories k [] hk
  have hpl := sum_map_set Player.tileCount newPlayer g.players pid
    (draftedPlayer (g.players.getD pid newPlayer) row
      ((g.factories.getD k []).filter (fun t => t = color)).length color) hp
  have htc := draftedPlayer_tileCount (g.players.getD pid newPlayer) row
    ((g.factories.getD k []).filter (fun t => t = color)).length color
    hr1 hr5 hlen
  have hpart := length_filter_eq_add_ne (g.factories.getD k []) color
  simp only [totalTiles, List.length_append, List.length_nil] at hfac hpl ⊢
  omega

theorem take_from_center_totalTiles
    {legal : Wall → Nat → Color → Bool} {g : AzulGame} {pid : Nat}
    {color : Color} {row : Nat} {g' : AzulGame}
    (hpat : ∀ p ∈ g.players, p.pattern.length = 5)
    (h : take_from_center legal g pid color row = some g') :
    totalTiles g' = totalTiles g := by
  obtain ⟨hp, hr1, hr5, hmem, hline, hleg, hg⟩ := take_from_center_some h
  have hlen := hpat (g.players.getD pid newPlayer)
    (getD_mem g.players pid newPlayer hp)
  subst hg
  have hpl := sum_map_set Player.tileCount newPlayer g.players pid
    (draftedPlayer (g.players.getD pid newPlayer) row
      (g.center.filter (fun t => t = color)).length color) hp
  have htc := draftedPlayer_tileCount (g.players.getD pid newPlayer) row
    (g.center.filter (fun t => t = color)).length color hr1 hr5 hlen
  have hpart := length_filter_eq_add_ne g.center color
  simp only [totalTiles] at hpl ⊢
  omega

theorem commitRow_spec (o : ScoreOracle) (p : Player) (row : Nat)
    (h1 : 1 ≤ row) (h5 : row ≤ 5) (hlen : p.pattern.length = 5) :
    (commitRow o p row).1.pattern.length = 5 ∧
      (commitRow o p row).1.floor = p.floor ∧
      (commitRow o p row).1.patternCount + (commitRow o p row).2.length +
        (if rowCommits o p row then 1 else 0) = p.patternCount := by
  have hlt : row - 1 < p.pattern.length := by omega
  have hpc : ((p.pattern.set (row - 1) emptyLine).map
        (fun l => l.count)).sum + (lineAt p row).count
      = (p.pattern.map (fun l => l.count)).sum := by
    have h3 := sum_map_set (fun l => l.count) emptyLine p.pattern (row - 1)
      emptyLine hlt
    simpa [lineAt, emptyLine] using h3
  have hcap : ROW_CAP row = row := rfl
  rcases hc : (lineAt p row).color with _ | c
  · have e1 : commitRow o p row = (p, []) := by simp [commitRow, hc]
    have e2 : rowCommits o p row = false := by simp [rowCommits, hc]
    rw [e1, e2]
    simp [hlen, Player.patternCount]
  · by_cases hcnt : (lineAt p row).count = ROW_CAP row
    · cases hcol : (o p.wall row c).2 with
      | none =>
        have e1 : commitRow o p row = (p, []) := by
          simp [commitRow, hc, hcnt, hcol]
        have e2 : rowCommits o p row = false := by
          simp [rowCommits, hc, hcnt, hcol]
        rw [e1, e2]
        simp [hlen, Player.patternCount]
      | some col =>
        have e1 : commitRow o p row =
            ({ p with
               wall := wallMark p.wall row col
               score := p.score + (o p.wall row c).1
               pattern := p.pattern.set (row - 1) emptyLine },
             List.replicate (ROW_CAP row - 1) c) := by
          simp [commitRow, hc, hcnt, hcol]
        have e2 : rowCommits o p row = true := by
          simp [rowCommits, hc, hcnt, hcol]
        have hind : (if rowCommits o p row then 1 else 0 : Nat) = 1 := by
          rw [e2]
          rfl
        rw [e1, hind]
        refine ⟨by simp [hlen], rfl, ?_⟩
        simp only [Player.patternCount, List.length_replicate]
        omega
    · have e1 : commitRow o p row = (p, []) := by simp [commitRow, hc, hcnt]
      have e2 : rowCommits o p row = false := by simp [rowCommits, hc, hcnt]
      rw [e1, e2]
      simp [hlen, Player.patternCount]

theorem commitRows_spec (o : ScoreOracle) :
    ∀ (rows : List Nat) (p : Player),
      (∀ r ∈ rows, 1 ≤ r ∧ r ≤ 5) → p.pattern.length = 5 →
      (commitRows o p rows).1.pattern.length = 5 ∧
        (commitRows o p rows).1.floor = p.floor ∧
        (commitRows o p rows).1.patternCount +
          (commitRows o p rows).2.length + committedCount o p rows
          = p.patternCount := by
  intro rows
  induction rows with
  | nil =>
    intro p _ hlen
    exact ⟨hlen, rfl, by simp [commitRows, committedCount]⟩
  | cons r rs ih =>
    intro p hr hlen
    have h1 := (hr r (by simp)).1
    have h5 := (hr r (by simp)).2
    obtain ⟨hL, hF, hC⟩ := commitRow_spec o p r h1 h5 hlen
    obtain ⟨hL2, hF2, hC2⟩ :=
      ih (commitRow o p r).1 (fun x hx => hr x (by simp [hx])) hL
    refine ⟨by simpa [commitRows] using hL2, ?_, ?_⟩
    · simp only [commitRows]
      rw [hF2, hF]
    · simp only [commitRows, committedCount, List.length_append]
      omega

theorem commitRows_floor (o : ScoreOracle) :
    ∀ (rows : List Nat) (p : Player),
      (commitRows o p rows).1.floor = p.floor := by
  intro rows
  induction rows with
  | nil => intro p; rfl
  | cons r rs ih =>
    intro p
    have hrow : (commitRow o p r).1.floor = p.floor := by
      rcases hc : (lineAt p r).color with _ | c
      · simp [commitRow, hc]
      · by_cases hcnt : (lineAt p r).count = ROW_CAP r
        · cases hcol : (o p.wall r c).2 with
          | none => simp [commitRow, hc, hcnt, hcol]
          | some col => simp [commitRow, hc, hcnt, hcol]
        · simp [commitRow, hc, hcnt]
    simp only [commitRows]
    rw [ih, hrow]

theorem endRoundPlayer_spec (o : ScoreOracle) (p : Player)
    (hlen : p.pattern.length = 5) :
    (endRoundPlayer o p).1.tileCount + (endRoundPlayer o p).2.length +
      committedCount o p ROWS + p.floor.length = p.tileCount := by
  have hrows : ∀ r ∈ ROWS, 1 ≤ r ∧ r ≤ 5 := by decide
  obtain ⟨hL, hF, hC⟩ := commitRows_spec o ROWS p hrows hlen
  simp only [endRoundPlayer, Player.tileCount, Player.patternCount,
    List.length_nil] at hC ⊢
  omega

theorem endRoundPlayers_spec (o : ScoreOracle) :
    ∀ ps : List Player, (∀ p ∈ ps, p.pattern.length = 5) →
      ((endRoundPlayers o ps).1.map Player.tileCount).sum +
        (endRoundPlayers o ps).2.length + committedTotal o ps +
        floorsTotal ps = (ps.map Player.tileCount).sum := by
  intro ps
  induction ps with
  | nil => intro _; simp [endRoundPlayers, committedTotal, floorsTotal]
  | cons p ps ih =>
    intro hlen
    have hp := endRoundPlayer_spec o p (hlen p (by simp))
    have hps := ih (fun x hx => hlen x (by simp [hx]))
    simp only [endRoundPlayers, committedTotal, floorsTotal, List.map_cons,
      List.sum_cons, List.length_append, Player.tileCount] at hp hps ⊢
    omega

theorem draw_tiles_conserve (s : List Color → List Color)
    (hs : ∀ l, (s l).length = l.length) :
    ∀ (n : Nat) (bag d : List Color),
      (draw_tiles s n bag d).1.length + (draw_tiles s n bag d).2.1.length +
        (draw_tiles s n bag d).2.2.length = bag.length + d.length := by
  intro n
  induction n with
  | zero => intro bag d; simp [draw_tiles]
  | succ n ih =>
    intro bag d
    rcases bag with _ | ⟨b, bs⟩
    · simp only [draw_tiles, List.isEmpty_nil, ite_true]
      by_cases h2 : s d = []
      · rw [dif_pos h2]
        have hlen := hs d
        rw [h2] at hlen
        simp [h2, ← hlen]
      · rw [dif_neg h2]
        have hrec := ih (s d).dropLast []
        have hpos : 0 < (s d).length := List.length_pos.mpr h2
        have hlen := hs d
        simp only [List.length_cons, List.length_dropLast, List.length_nil]
          at hrec ⊢
        omega
    · simp only [draw_tiles, List.isEmpty_cons, Bool.false_eq_true, if_false]
      have hne : (b :: bs : List Color) ≠ [] := by simp
      rw [dif_neg hne]
      have hrec := ih (b :: bs).dropLast d
      simp only [List.length_cons, List.length_dropLast] at hrec ⊢
      omega

theorem refillLoop_conserve (s : List Color → List Color)
    (hs : ∀ l, (s l).length = l.length) :
    ∀ (fs : List (List Color)) (bag d : List Color),
      ((refillLoop s fs bag d).1.map List.length).sum +
        (refillLoop s fs bag d).2.1.length +
        (refillLoop s fs bag d).2.2.length = bag.length + d.length := by
  intro fs
  induction fs with
  | nil => intro bag d; simp [refillLoop]
  | cons f fs ih =>
    intro bag d
    have hdraw := draw_tiles_conserve s hs 4 bag d
    have hrec := ih (draw_tiles s 4 bag d).2.1 (draw_tiles s 4 bag d).2.2
    simp only [refillLoop, List.map_cons, List.sum_cons] at hrec ⊢
    omega

theorem end_round_totalTiles (o : ScoreOracle) (s : List Color → List Color)
    (hs : ∀ l, (s l).length = l.length) (g : AzulGame)
    (hpat : ∀ p ∈ g.players, p.pattern.length = 5) :
    totalTiles (end_round o s g) + committedTotal o g.players +
      floorsTotal g.players + g.center.length +
      (g.factories.map List.length).sum = totalTiles g := by
  have hplayers := endRoundPlayers_spec o g.players hpat
  have hfill := refillLoop_conserve s hs g.factories g.bag
    (g.discard ++ (endRoundPlayers o g.players).2)
  simp only [end_round, refill_factories, totalTiles, List.length_append,
    List.length_nil] at hfill ⊢
  omega

/-- An oracle that never answers a column (models `wall_column_for` failing);
used for concrete evaluations. -/
def oracleZero : ScoreOracle := fun _ _ _ => (0, none)

/-- A game whose only tile sits on player 0's floor; all pools are empty. -/
def gC1 : AzulGame :=
  { players := [{ newPlayer with floor := [.blue] }, newPlayer], current := 0,
    bag := [], discard := [], center := [], factories := [[], [], [], [], []] }

/-- C1, counterexample: `end_round` does not preserve the total tile count
over the pools the claim enumerates.  In `gC1` the single floor tile is
destroyed by `p.floor = []` without entering the discard pile, so the total
drops from 1 to 0. -/
theorem tile_conservation_counterexample :
    ¬ totalTiles (end_round oracleZero (fun l => l) gC1) = totalTiles gC1 := by
  decide

/-- C1, amended: the draft operations preserve the total tile count across
factories + center + bag + discard + pattern lines + floors, and so does the
factory refill; but `end_round` lowers the total by one tile per committed row
(the tile placed on the wall leaves the counted pools), by every floor tile
(floors are cleared without entering the discard pile) and by any tiles still
in the center or the factories at commit time (both are empty when the play
loop calls `end_round`, but the function itself destroys them). -/
theorem tile_conservation_amended :
    (∀ (legal : Wall → Nat → Color → Bool) (g : AzulGame) (pid k : Nat)
       (color : Color) (row : Nat) (g' : AzulGame),
       (∀ p ∈ g.players, p.pattern.length = 5) →
       take_from_factory legal g pid k color row = some g' →
       totalTiles g' = totalTiles g) ∧
    (∀ (legal : Wall → Nat → Color → Bool) (g : AzulGame) (pid : Nat)
       (color : Color) (row : Nat) (g' : AzulGame),
       (∀ p ∈ g.players, p.pattern.length = 5) →
       take_from_center legal g pid color row = some g' →
       totalTiles g' = totalTiles g) ∧
    (∀ (o : ScoreOracle) (s : List Color → List Color) (g : AzulGame),
       (∀ l, (s l).length = l.length) →
       (∀ p ∈ g.players, p.pattern.length = 5) →
       totalTiles (end_round o s g) + committedTotal o g.players +
         floorsTotal g.players + g.center.length +
         (g.factories.map List.length).sum = totalTiles g) :=
  ⟨fun _ _ _ _ _ _ _ hpat h => take_from_factory_totalTiles hpat h,
   fun _ _ _ _ _ _ hpat h => take_from_center_totalTiles hpat h,
   fun o s g hs hpat => end_round_totalTiles o s hs g hpat⟩

/-- Witness for C1 (amended) at concrete inputs: the successful draft of
`draft_effect_witness` preserves the total, and on `gC1` the `end_round`
deficit is exactly the one destroyed floor tile. -/
theorem tile_conservation_amended_witness :
    totalTiles gW3 = totalTiles gW ∧
      totalTiles (end_round oracleZero (fun l => l) gC1) +
        committedTotal oracleZero gC1.players + floorsTotal gC1.players +
        gC1.center.length + (gC1.factories.map List.length).sum
        = totalTiles gC1 :=
  ⟨tile_conservation_amended.1 (fun _ _ _ => true) gW 0 0 .blue 2 gW3
      (by decide) (by decide),
   tile_conservation_amended.2.2 oracleZero (fun l => l) gC1 (fun _ => rfl)
      (by decide)⟩

/-- C5, counterexample: the score is not floored at zero after the floor
penalty.  In `gC1` player 0 has score 0 and one floor tile; after `end_round`
the reported score is `-1 < 0`, because `end_round` adds the penalty with no
clamp. -/
theorem score_clamp_counterexample :
    ((end_round oracleZero (fun l => l) gC1).players.getD 0 newPlayer).score
      < 0 := by
  decide

/-- C5, amended: no clamping exists.  At commit time the (always nonpositive)
floor penalty of the player's current floor is added to the post-row-scoring
score unconditionally, so the reported score can be negative. -/
theorem score_no_clamp (o : ScoreOracle) (p : Player) :
    (endRoundPlayer o p).1.score
      = (commitRows o p ROWS).1.score +
        (if p.floor_penalty < 0 then p.floor_penalty else 0) ∧
      p.floor_penalty ≤ 0 := by
  constructor
  · have hfl : (commitRows o p ROWS).1.floor = p.floor :=
      commitRows_floor o ROWS p
    have hpen : (commitRows o p ROWS).1.floor_penalty = p.floor_penalty := by
      simp only [Player.floor_penalty, hfl]
    simp only [endRoundPlayer, hpen]
    split <;> omega
  · exact floor_penalties_take_nonpos _

/-- C6. Floor penalty rule: the penalty is the sum of the fixed schedule
`[-1,-1,-2,-2,-2,-3,-3]` over the first `min(floor length, 7)` entries, hence
always nonpositive; a 9-tile floor incurs exactly `-14` (the 2 tiles beyond
the schedule add nothing); and the commit phase clears the floor afterwards. -/
theorem floor_penalty_rule :
    (∀ p : Player,
       p.floor_penalty = (FLOOR_PENALTIES.take (min p.floor.length 7)).sum) ∧
    (∀ p : Player, p.floor_penalty ≤ 0) ∧
    (∀ p : Player, p.floor.length = 9 → p.floor_penalty = -14) ∧
    (∀ (o : ScoreOracle) (p : Player), (endRoundPlayer o p).1.floor = []) := by
  refine ⟨fun p => rfl, fun p => floor_penalties_take_nonpos _, ?_, ?_⟩
  · intro p h
    simp only [Player.floor_penalty, h]
    decide
  · intro o p
    rfl

/-- A player whose floor holds 9 tiles. -/
def player9 : Player := { newPlayer with floor := List.replicate 9 .blue }

/-- Witness for C6 at a concrete input: a 9-tile floor scores exactly -14. -/
theorem floor_penalty_rule_witness :
    player9.floor.length = 9 ∧ player9.floor_penalty = -14 :=
  ⟨by decide, floor_penalty_rule.2.2.1 player9 (by decide)⟩

/-- Source `_legal_wall_target` from agents.py: runs the (quoted) query once
and returns `True` whenever the call returns at all, never inspecting the
solution list; an exception propagates to the caller (the agents wrap each
call in try/except and skip the action only then). -/
def agents_legal_wall_target (q : QueryResult) : Except Unit Bool :=
  match q with
  | .ok _ => .ok true
  | .error e => .error e

/-- A wall whose row 1 already holds its blue tile (cell (1,1) in Python
terms, `wall[0][0] = 1`). -/
def wallBlueR1 : Wall :=
  [1, 0, 0, 0, 0] :: List.replicate 4 (List.replicate 5 0)

/-- A player with blue already placed on wall row 1. -/
def playerBlueWall : Player := { newPlayer with wall := wallBlueR1 }

/-- A game where player 0 already has blue on wall row 1 and factory 0 holds
one blue tile — drafting blue to row 1 is illegal under the Azul rules, so the
Prolog `legal_placement` query has no solution. -/
def gC4 : AzulGame :=
  { players := [playerBlueWall, newPlayer], current := 0, bag := [],
    discard := [], center := [], factories := [[.blue]] }

/-- The `legal_wall_target` of play_azul.py when the Prolog query returns
normally but with zero solutions (the oracle's "no answer"). -/
def legalNoAnswer : Wall → Nat → Color → Bool :=
  fun _ _ _ => legal_wall_target (.ok []) (.ok [])

/-- C4, code bug: when the rule oracle returns "no answer" (a query that
succeeds with an empty solution list, `Except.ok []`), the engine's
`legal_wall_target` still returns `True` — the solution list is never
inspected — so the placement the oracle rejects is *accepted* by
`take_from_factory`, and the agents' `_legal_wall_target` likewise reports the
action legal (it is excluded only on a raised exception).  The claim (and the
engine's own error message for this branch) says no-answer must be treated as
illegal. -/
theorem oracle_gating_bug :
    oracleSaysLegal (.ok []) = false ∧
    (∀ q2 : QueryResult, legal_wall_target (.ok []) q2 = true) ∧
    agents_legal_wall_target (.ok []) = .ok true ∧
    (take_from_factory legalNoAnswer gC4 0 0 .blue 1).isSome = true ∧
    Action.fromFactory 0 .blue 1 ∈ legalActions (fun _ _ _ => true) gC4 0 :=
  ⟨rfl, fun _ => rfl, rfl, by decide, by decide⟩

/-- C8. Name shadowing in agents.py: the module-level name `GreedyAgent`
resolves to the second class definition, whose method table lacks
`get_candidate_moves`, `is_valid` and `pick_best` (and no module-level
function provides them either), so the exported agent's `choose` raises
`AttributeError` for every game state and player id at its very first
statement. -/
theorem greedy_shadowing :
    pyModuleLookup agentsModuleClassBindings "GreedyAgent"
      = some greedyAgentSecondMethods ∧
    greedyAgentSecondMethods ≠ greedyAgentFirstMethods ∧
    pyGetattr greedyAgentSecondMethods "get_candidate_moves"
      = .attributeError "get_candidate_moves" ∧
    pyGetattr greedyAgentSecondMethods "is_valid"
      = .attributeError "is_valid" ∧
    pyGetattr greedyAgentSecondMethods "pick_best"
      = .attributeError "pick_best" ∧
    "get_candidate_moves" ∉ agentsModuleFunctionNames ∧
    "is_valid" ∉ agentsModuleFunctionNames ∧
    "pick_best" ∉ agentsModuleFunctionNames ∧
    (∀ (pb : List Action → Option Action) (g : AzulGame) (pid : Nat),
       greedySecondChoose moduleGetCandidateMoves pb g pid
         = .attributeError "get_candidate_moves") :=
  ⟨rfl, by decide, by decide, by decide, by decide, by decide, by decide,
   by decide, fun _ _ _ => rfl⟩

/-- C9, code bug: `MiniMaxAgent.choose` calls `clone.apply_action(pid, a)`
on the deep-copied game, but no class in the repository defines
`apply_action`, so for every state with a non-empty legal action set the call
raises `AttributeError` instead of evaluating candidates and returning an
action of maximum evaluation. -/
theorem minimax_missing_apply_action :
    (∀ (queryOk : Wall → Nat → Color → Bool) (g : AzulGame) (pid : Nat),
       legalActions queryOk g pid ≠ [] →
       minimaxChoose queryOk applyActionMethod g pid
         = .attributeError "apply_action") ∧
    pyGetattr azulGameFullUiMethods "apply_action"
      = .attributeError "apply_action" ∧
    pyGetattr playAzulGameMethods "apply_action"
      = .attributeError "apply_action" := by
  refine ⟨?_, by decide, by decide⟩
  intro queryOk g pid h
  have hne : (legalActions queryOk g pid).isEmpty = false := by
    cases hl : legalActions queryOk g pid with
    | nil => exact absurd hl h
    | cons a l => rfl
  simp only [minimaxChoose, applyActionMethod, hne, Bool.false_eq_true,
    if_false]

/-- Witness for C9 at a concrete input: the fresh game `gW` has legal actions,
and the exported minimax agent crashes on it. -/
theorem minimax_missing_apply_action_witness :
    legalActions (fun _ _ _ => true) gW 0 ≠ [] ∧
      minimaxChoose (fun _ _ _ => true) applyActionMethod gW 0
        = .attributeError "apply_action" :=
  ⟨by decide,
   minimax_missing_apply_action.1 (fun _ _ _ => true) gW 0 (by decide)⟩

theorem sortDesc_head :
    ∀ l : List (Action × Int), (sortDesc l).head? = firstMax l := by
  intro l
  induction l with
  | nil => rfl
  | cons x xs ih =>
    simp only [sortDesc, firstMax]
    rw [← ih]
    cases hs : sortDesc xs with
    | nil => simp [insertDesc]
    | cons y ys =>
      by_cases hxy : x.2 < y.2 <;> simp [insertDesc, hxy]

theorem firstMax_spec :
    ∀ l : List (Action × Int), l ≠ [] →
      ∃ l1 m l2, l = l1 ++ m :: l2 ∧ firstMax l = some m ∧
        (∀ y ∈ l, y.2 ≤ m.2) ∧ (∀ y ∈ l1, y.2 < m.2) := by
  intro l
  induction l with
  | nil => intro h; exact absurd rfl h
  | cons x xs ih =>
    intro _
    by_cases hxs : xs = []
    · subst hxs
      refine ⟨[], x, [], rfl, rfl, ?_, by simp⟩
      intro y hy
      simp only [List.mem_singleton] at hy
      subst hy
      exact le_refl _
    · obtain ⟨l1, m, l2, hsplit, hfm, hmax, hlt⟩ := ih hxs
      by_cases hxm : x.2 < m.2
      · refine ⟨x :: l1, m, l2, by simp [hsplit], ?_, ?_, ?_⟩
        · simp [firstMax, hfm, hxm]
        · intro y hy
          rcases List.mem_cons.mp hy with rfl | hy
          · exact le_of_lt hxm
          · exact hmax y hy
        · intro y hy
          rcases List.mem_cons.mp hy with rfl | hy
          · exact hxm
          · exact hlt y hy
      · refine ⟨[], x, xs, rfl, ?_, ?_, by simp⟩
        · simp [firstMax, hfm, hxm]
        · intro y hy
          rcases List.mem_cons.mp hy with rfl | hy
          · exact le_refl _
          · exact le_trans (hmax y hy) (not_lt.mp hxm)

theorem floorPenaltyForOverflow_nonpos (fl ov : Nat) :
    floorPenaltyForOverflow fl ov ≤ 0 := by
  unfold floorPenaltyForOverflow
  split
  · exact le_refl 0
  · exact floor_penalties_slice_nonpos _ _

/-- C7. Greedy agent choice: every legal candidate is valued as
`tiles_placed_into_row + (oracle score if the action completes the row) +
overflow penalty delta` (the delta is computed from the player's *current*
floor length and is always nonpositive), and `choose` returns the action of
maximum value, ties broken by enumeration order — the candidate list splits as
`l1 ++ m :: l2` with the chosen `m` of maximal value and every earlier
candidate strictly smaller (Python's stable descending sort puts the first
maximum first). -/
theorem greedy_agent_choice (queryOk : Wall → Nat → Color → Bool)
    (scoreFn : Wall → Nat → Color → Int) (g : AzulGame) (pid : Nat)
    (h : greedyCandidates queryOk scoreFn g pid ≠ []) :
    (∀ fl ov, floorPenaltyForOverflow fl ov ≤ 0) ∧
      ∃ l1 m l2,
        greedyCandidates queryOk scoreFn g pid = l1 ++ m :: l2 ∧
        greedyChoose queryOk scoreFn g pid = some m.1 ∧
        (∀ y ∈ greedyCandidates queryOk scoreFn g pid, y.2 ≤ m.2) ∧
        (∀ y ∈ l1, y.2 < m.2) := by
  refine ⟨fun fl ov => floorPenaltyForOverflow_nonpos fl ov, ?_⟩
  obtain ⟨l1, m, l2, hsplit, hfm, hmax, hlt⟩ :=
    firstMax_spec (greedyCandidates queryOk scoreFn g pid) h
  refine ⟨l1, m, l2, hsplit, ?_, hmax, hlt⟩
  have hne : (greedyCandidates queryOk scoreFn g pid).isEmpty = false := by
    cases hl : greedyCandidates queryOk scoreFn g pid with
    | nil => exact absurd hl h
    | cons a l => rfl
  simp only [greedyChoose, hne, Bool.false_eq_true, if_false, sortDesc_head,
    hfm]
  rfl

/-- Witness for C7 at a concrete input: `gW` (factory `[blue,blue,red,red]`,
center `[red]`) has a non-empty greedy candidate list, and the theorem applies. -/
theorem greedy_agent_choice_witness :
    greedyCandidates (fun _ _ _ => true) (fun _ _ _ => 0) gW 0 ≠ [] ∧
      (∃ l1 m l2,
        greedyCandidates (fun _ _ _ => true) (fun _ _ _ => 0) gW 0
          = l1 ++ m :: l2 ∧
        greedyChoose (fun _ _ _ => true) (fun _ _ _ => 0) gW 0 = some m.1 ∧
        (∀ y ∈ greedyCandidates (fun _ _ _ => true) (fun _ _ _ => 0) gW 0,
          y.2 ≤ m.2) ∧
        (∀ y ∈ l1, y.2 < m.2)) :=
  ⟨by decide,
   (greedy_agent_choice (fun _ _ _ => true) (fun _ _ _ => 0) gW 0
     (by decide)).2⟩

theorem draw_tiles_length (s : List Color → List Color)
    (hs : ∀ l, (s l).length = l.length) :
    ∀ (n : Nat) (bag d : List Color),
      (draw_tiles s n bag d).1.length = min n (bag.length + d.length) := by
  intro n
  induction n with
  | zero => intro bag d; simp [draw_tiles]
  | succ n ih =>
    intro bag d
    rcases bag with _ | ⟨b, bs⟩
    · simp only [draw_tiles, List.isEmpty_nil, ite_true]
      by_cases h2 : s d = []
      · rw [dif_pos h2]
        have hlen := hs d
        rw [h2] at hlen
        simp only [List.length_nil] at hlen ⊢
        omega
      · rw [dif_neg h2]
        have hrec := ih (s d).dropLast []
        have hlen := hs d
        have hpos : 0 < (s d).length := List.length_pos.mpr h2
        simp only [List.length_cons, List.length_dropLast, List.length_nil]
          at hrec ⊢
        omega
    · simp only [draw_tiles, List.isEmpty_cons, Bool.false_eq_true, if_false]
      have hne : (b :: bs : List Color) ≠ [] := by simp
      rw [dif_neg hne]
      have hrec := ih (b :: bs).dropLast d
      simp only [List.length_cons, List.length_dropLast] at hrec ⊢
      omega

theorem draw_tiles_exhausted (s : List Color → List Color)
    (_hs : ∀ l, (s l).length = l.length) :
    ∀ (n : Nat) (bag d : List Color),
      (draw_tiles s n bag d).1.length < n →
      (draw_tiles s n bag d).2.1 = [] ∧ (draw_tiles s n bag d).2.2 = [] := by
  intro n
  induction n with
  | zero => intro bag d h; simp at h
  | succ n ih =>
    intro bag d h
    rcases bag with _ | ⟨b, bs⟩
    · simp only [draw_tiles, List.isEmpty_nil, ite_true] at h ⊢
      by_cases h2 : s d = []
      · rw [dif_pos h2]
        exact ⟨h2, rfl⟩
      · rw [dif_neg h2] at h ⊢
        simp only [List.length_cons] at h
        exact ih (s d).dropLast [] (by omega)
    · simp only [draw_tiles, List.isEmpty_cons, Bool.false_eq_true, if_false]
        at h ⊢
      have hne : (b :: bs : List Color) ≠ [] := by simp
      rw [dif_neg hne] at h ⊢
      simp only [List.length_cons] at h
      exact ih (b :: bs).dropLast d (by omega)

theorem draw_tiles_empty (s : List Color → List Color)
    (hs : ∀ l, (s l).length = l.length) (n : Nat) :
    draw_tiles s n [] [] = ([], [], []) := by
  cases n with
  | zero => rfl
  | succ n =>
    have h0 : s [] = [] := by
      have h1 := hs []
      simp only [List.length_nil] at h1
      exact List.length_eq_zero.mp h1
    simp [draw_tiles, h0]

theorem refillLoop_empty (s : List Color → List Color)
    (hs : ∀ l, (s l).length = l.length) :
    ∀ fs : List (List Color),
      (refillLoop s fs [] []).2.1 = [] ∧ (refillLoop s fs [] []).2.2 = [] := by
  intro fs
  induction fs with
  | nil => exact ⟨rfl, rfl⟩
  | cons f fs ih =>
    simp only [refillLoop, draw_tiles_empty s hs 4]
    exact ih

theorem refillLoop_short (s : List Color → List Color)
    (hs : ∀ l, (s l).length = l.length) :
    ∀ (fs : List (List Color)) (bag d : List Color) (f : List Color),
      f ∈ (refillLoop s fs bag d).1 → f.length < 4 →
      (refillLoop s fs bag d).2.1 = [] ∧
        (refillLoop s fs bag d).2.2 = [] := by
  intro fs
  induction fs with
  | nil => intro bag d f hf _; simp [refillLoop] at hf
  | cons f0 fs ih =>
    intro bag d f hf hlen4
    simp only [refillLoop] at hf ⊢
    rcases List.mem_cons.mp hf with rfl | hf
    · have hlt : (draw_tiles s 4 bag d).1.length < 4 := hlen4
      have hex := draw_tiles_exhausted s hs 4 bag d hlt
      rw [hex.1, hex.2]
      exact refillLoop_empty s hs fs
    · exact ih _ _ f hf hlen4

theorem refillLoop_factory_le (s : List Color → List Color)
    (hs : ∀ l, (s l).length = l.length) :
    ∀ (fs : List (List Color)) (bag d : List Color) (f : List Color),
      f ∈ (refillLoop s fs bag d).1 → f.length ≤ 4 := by
  intro fs
  induction fs with
  | nil => intro bag d f hf; simp [refillLoop] at hf
  | cons f0 fs ih =>
    intro bag d f hf
    simp only [refillLoop] at hf
    rcases List.mem_cons.mp hf with rfl | hf
    · rw [draw_tiles_length s hs]
      exact Nat.min_le_left _ _
    · exact ih _ _ f hf

theorem refillLoop_length (s : List Color → List Color) :
    ∀ (fs : List (List Color)) (bag d : List Color),
      (refillLoop s fs bag d).1.length = fs.length := by
  intro fs
  induction fs with
  | nil => intro bag d; rfl
  | cons f0 fs ih =>
    intro bag d
    simp only [refillLoop, List.length_cons, ih]

/-- C10. Factory refill: at the end of every commit phase the center is
cleared; each factory is refilled by a draw of 4 tiles that keeps drawing
after moving the (shuffled) discard pile into the bag when the bag empties
mid-draw, so a draw yields `min n (bag + discard)` tiles; a factory left with
fewer than 4 tiles means bag and discard are both exhausted afterwards (no
error is raised anywhere — every function is total); the number of factories
is unchanged. -/
theorem factory_refill (s : List Color → List Color)
    (hs : ∀ l, (s l).length = l.length) :
    (∀ (o : ScoreOracle) (g : AzulGame), (end_round o s g).center = []) ∧
    (∀ (n : Nat) (bag d : List Color),
       (draw_tiles s n bag d).1.length = min n (bag.length + d.length)) ∧
    (∀ (o : ScoreOracle) (g : AzulGame) (f : List Color),
       f ∈ (end_round o s g).factories → f.length ≤ 4) ∧
    (∀ (o : ScoreOracle) (g : AzulGame) (f : List Color),
       f ∈ (end_round o s g).factories → f.length < 4 →
       (end_round o s g).bag = [] ∧ (end_round o s g).discard = []) ∧
    (∀ (o : ScoreOracle) (g : AzulGame),
       (end_round o s g).factories.length = g.factories.length) := by
  refine ⟨fun o g => rfl, draw_tiles_length s hs, ?_, ?_, ?_⟩
  · intro o g f hf
    simp only [end_round, refill_factories] at hf
    exact refillLoop_factory_le s hs _ _ _ f hf
  · intro o g f hf hlt
    simp only [end_round, refill_factories] at hf ⊢
    exact refillLoop_short s hs _ _ _ f hf hlt
  · intro o g
    simp only [end_round, refill_factories]
    exact refillLoop_length s _ _ _

/-- Witness for C10 at concrete inputs: identity shuffle, the commit phase of
`gC1` clears the center, and a 4-draw from a 1-tile bag yields 1 tile. -/
theorem factory_refill_witness :
    (end_round oracleZero (fun l => l) gC1).center = [] ∧
      (draw_tiles (fun l => l) 4 [Color.blue] []).1.length
        = min 4 ([Color.blue].length + ([] : List Color).length) :=
  ⟨(factory_refill (fun l => l) (fun _ => rfl)).1 oracleZero gC1,
   (factory_refill (fun l => l) (fun _ => rfl)).2.1 4 [Color.blue] []⟩

end Azul
